import Mathlib

/-!
Verification development for the fund-page freshness monitor
(`src/website_check.py`).

The Python program works with `datetime.date` values.  A `datetime.date`
is in bijection with its proleptic-Gregorian ordinal (`date.toordinal`,
with day 1 = 0001-01-01), and `date` arithmetic (`- timedelta(days=n)`,
`.weekday()`) is defined through that bijection, so the embedding keeps a
`Date` structure of year/month/day fields (used by `strftime`/`strptime`
and as scan input) together with `Date.toordinal` and `fromordinal`,
mirroring CPython's own definitions, and performs the day stepping of
`get_last_bd` and of the month-end loop on ordinals.

Network fetches and BeautifulSoup text extraction are not modelled: a
per-fund unit of work receives the list of extracted date records and the
full page text as input (`Page`), and `none` models the exception path
(timeout / connection error) of `check_fund`'s `try` block.  Everything
downstream of that boundary — deadline computation, bucket classification,
staleness evaluation, the fallback ticker list and the sort of the scan
results — is translated function by function from the source.
-/

/-- Calendar date, the relevant fields of a Python `datetime.date`. -/
structure Date where
  year : Nat
  month : Nat
  day : Nat
deriving DecidableEq

/-- Gregorian leap-year test, as in CPython's `datetime._is_leap`. -/
def isLeap (y : Nat) : Bool := (y % 4 == 0 && y % 100 != 0) || y % 400 == 0

/-- Number of days in month `m` of year `y` (CPython `_days_in_month`). -/
def daysInMonth (y m : Nat) : Nat :=
  if m = 2 then (if isLeap y then 29 else 28)
  else if m = 4 ∨ m = 6 ∨ m = 9 ∨ m = 11 then 30
  else 31

/-- Days in year `y` before month `m` (CPython `_days_before_month`,
written as a sum rather than a table). -/
def daysBeforeMonth (y m : Nat) : Nat :=
  ((List.range (m - 1)).map fun k => daysInMonth y (k + 1)).sum

/-- Days before January 1st of year `y` (CPython `_days_before_year`);
the subtraction is grouped last so that it cannot truncate. -/
def daysBeforeYear (y : Nat) : Nat :=
  365 * (y - 1) + (y - 1) / 4 + (y - 1) / 400 - (y - 1) / 100

/-- Proleptic-Gregorian ordinal of a date (Python `date.toordinal`):
0001-01-01 has ordinal 1. -/
def Date.toordinal (d : Date) : Int :=
  Int.ofNat (daysBeforeYear d.year + daysBeforeMonth d.year d.month + d.day)

/-- Weekday of an ordinal, Monday = 0 .. Sunday = 6 (Python `date.weekday`:
ordinal 1 is a Monday). -/
def wkd (o : Int) : Int := (o + 6) % 7

/-- The dates representable as Python `datetime.date` values
(`MINYEAR = 1`, `MAXYEAR = 9999`). -/
def Date.Valid (d : Date) : Prop :=
  1 ≤ d.year ∧ d.year ≤ 9999 ∧ 1 ≤ d.month ∧ d.month ≤ 12 ∧
    1 ≤ d.day ∧ d.day ≤ daysInMonth d.year d.month

instance (d : Date) : Decidable d.Valid := by unfold Date.Valid; infer_instance

/-- Inverse of `Date.toordinal` (Python `date.fromordinal`), via the
standard civil-from-days algorithm; all intermediate quantities are
nonnegative for ordinals of valid dates, so `Int` truncated division
agrees with the floor division the algorithm needs. -/
def fromordinal (o : Int) : Date :=
  let z := o + 305
  let era := z / 146097
  let doe := z - era * 146097
  let yoe := (doe - doe / 1460 + doe / 36524 - doe / 146096) / 365
  let y := yoe + era * 400
  let doy := doe - (365 * yoe + yoe / 4 - yoe / 100)
  let mp := (5 * doy + 2) / 153
  let dd := doy - (153 * mp + 2) / 5 + 1
  let mm := if mp < 10 then mp + 3 else mp - 9
  let yy := if mm ≤ 2 then y + 1 else y
  ⟨yy.toNat, mm.toNat, dd.toNat⟩

/-- Loop body of `get_last_bd` (src lines 44-50): `curr` starts at `d`
with counter `c = 0`; while `c < n`, step one calendar day back and count
the day when it is a weekday. -/
def get_last_bd_go (curr : Int) (c n : Nat) : Int :=
  if c < n then
    (if wkd (curr - 1) < 5 then get_last_bd_go (curr - 1) (c + 1) n
     else get_last_bd_go (curr - 1) c n)
  else curr
termination_by
  3 * (n - c) + (if (curr + 6) % 7 = 0 then 2 else if (curr + 6) % 7 = 6 then 1 else 0)
decreasing_by all_goals (simp_wf; simp only [wkd] at *; split_ifs <;> omega)

/-- The source's `get_last_bd(d, n)`, on ordinals. -/
def get_last_bd (d : Int) (n : Nat) : Int := get_last_bd_go d 0 n

/-- The `while last_month.weekday() > 4: last_month -= timedelta(days=1)`
loop of `get_expectations` (src line 36), on ordinals. -/
def skipWeekBack (o : Int) : Int :=
  if wkd o > 4 then skipWeekBack (o - 1) else o
termination_by ((o + 6) % 7).toNat
decreasing_by simp_wf; simp only [wkd] at *; omega

/-- Number of weekdays among the calendar days `a, a+1, …, b-1`;
`bdBetween r d = n` states that `r` lies exactly `n` business days
before `d`. -/
def bdBetween (a b : Int) : Nat :=
  if a < b then (if wkd (b - 1) < 5 then 1 else 0) + bdBetween a (b - 1) else 0
termination_by (b - a).toNat
decreasing_by simp_wf; omega

/-- Configuration list `EXCEPTION_FUNDS` of the source (src line 20). -/
def EXCEPTION_FUNDS : List String := ["USTB", "BCOM", "USIG"]

/-- Configuration list `FORCE_LIST` of the source (src line 21). -/
def FORCE_LIST : List String := ["ETPMAG", "ETPMPD", "ETPMPM", "ETPMPT"]

/-- Configuration list `BLACKLIST` of `get_all_tickers` (src line 59). -/
def BLACKLIST : List String :=
  ["INDEX", "ABOUT", "MEDIA", "LOGIN", "TERMS", "PRIVACY", "ADMIN", "FUNDS"]

/-- Python `str.upper()` (ASCII inputs in this program). -/
def pyUpper (s : String) : String := String.mk (s.data.map Char.toUpper)

/-- The source's `get_expectations(ticker)` (src lines 31-42).  The Python function
reads the Sydney clock; the current date is passed explicitly here.
Returns `(exp_nav, exp_hold, exp_dist)` as ordinals. -/
def get_expectations (ticker : String) (now_syd : Date) : Int × Int × Int :=
  let o := now_syd.toordinal
  let first : Date := ⟨now_syd.year, now_syd.month, 1⟩
  let last_month := skipWeekBack (first.toordinal - 1)
  if EXCEPTION_FUNDS.contains (pyUpper ticker) then
    (get_last_bd o 2, get_last_bd o 1, last_month)
  else
    (get_last_bd o 1, o, last_month)

/-- Code-point lexicographic strict comparison on character lists,
the order Python uses to compare strings. -/
def lexLt : List Char → List Char → Bool
  | _, [] => false
  | [], _ :: _ => true
  | a :: as, b :: bs =>
    if a.toNat < b.toNat then true
    else if b.toNat < a.toNat then false
    else lexLt as bs

/-- Non-strict string comparison used for `sorted(...)`. -/
def strLeB (a b : String) : Bool := !(lexLt b.data a.data)

/-- The source's `get_all_tickers()` (src lines 52-61).  `some matches` carries the
result of the regex findall on a successfully fetched index page;
`none` models the `except` path (fetch or parse failure). -/
def get_all_tickers (fetched : Option (List String)) : List String :=
  match fetched with
  | some ms =>
    let candidates := ((ms.map pyUpper) ++ FORCE_LIST).dedup
    (candidates.filter fun t =>
      !(BLACKLIST.contains t) && decide (3 ≤ t.length)).mergeSort strLeB
  | none => FORCE_LIST ++ ["ACDC", "BANK"]

/-- Does `needle` occur at the head of the list? -/
def leadMatch : List Char → List Char → Bool
  | [], _ => true
  | _ :: _, [] => false
  | a :: as, b :: bs => a == b && leadMatch as bs

/-- Substring occurrence (Python's `in` on strings). -/
def hasSub (needle : List Char) : List Char → Bool
  | [] => leadMatch needle []
  | c :: t => leadMatch needle (c :: t) || hasSub needle t

/-- Python `needle in hay` for strings: case-sensitive substring test. -/
def strIn (needle hay : String) : Bool := hasSub needle.data hay.data

/-- Decimal digit character: `digitChar k` for `k ≤ 9`. -/
def digitChar (n : Nat) : Char := Char.ofNat (48 + n)

/-- Two zero-padded decimal digits, the `%d` directive of
`strftime('%d %b %Y')` for day values (0-99). -/
def ddChars (n : Nat) : List Char := [digitChar (n / 10 % 10), digitChar (n % 10)]

/-- Abbreviated month name, the `%b` directive (C/en locale). -/
def monChars : Nat → List Char
  | 1 => ['J', 'a', 'n']
  | 2 => ['F', 'e', 'b']
  | 3 => ['M', 'a', 'r']
  | 4 => ['A', 'p', 'r']
  | 5 => ['M', 'a', 'y']
  | 6 => ['J', 'u', 'n']
  | 7 => ['J', 'u', 'l']
  | 8 => ['A', 'u', 'g']
  | 9 => ['S', 'e', 'p']
  | 10 => ['O', 'c', 't']
  | 11 => ['N', 'o', 'v']
  | 12 => ['D', 'e', 'c']
  | _ => []

/-- Four zero-padded decimal digits, the `%Y` directive (years 0-9999,
zero-padded to four digits as documented for Python's fixed format). -/
def yChars (n : Nat) : List Char :=
  [digitChar (n / 1000 % 10), digitChar (n / 100 % 10),
   digitChar (n / 10 % 10), digitChar (n % 10)]

/-- Python `d.strftime('%d %b %Y')` (used at src line 113). -/
def strftime_dbY (d : Date) : String :=
  String.mk (ddChars d.day ++ ' ' :: (monChars d.month ++ ' ' :: yChars d.year))

/-- Python whitespace (`\s` of `re`, `str.strip`), ASCII range. -/
def pyWs (c : Char) : Bool :=
  c == ' ' || c == '\t' || c == '\n' || c == '\r' || c == '\x0b' || c == '\x0c'

/-- Case-insensitive character comparison (the `(?i)` regex flag). -/
def ciEq (a b : Char) : Bool := a.toLower == b.toLower

/-- Match a literal pattern case-insensitively at the head of the input,
returning the remaining input. -/
def litCI : List Char → List Char → Option (List Char)
  | [], rest => some rest
  | _ :: _, [] => none
  | p :: ps, c :: cs => if ciEq c p then litCI ps cs else none

/-- Match `\s+` (one or more whitespace characters, greedy) at the head
of the input. -/
def wsPlus : List Char → Option (List Char)
  | [] => none
  | c :: cs => if pyWs c then some (cs.dropWhile pyWs) else none

/-- Try to match the regex `(?i)(date|data)\s+as\s+of\s+` of `parse_date`
(src line 27) at the head of the input; on success return the input after
the match.  No backtracking is needed: `a` and `o` are not whitespace, so
the greedy `\s+` cannot overrun the following literal. -/
def tryAsOf (l : List Char) : Option (List Char) := do
  let r1 ← (litCI ['d', 'a', 't', 'e'] l) <|> (litCI ['d', 'a', 't', 'a'] l)
  let r2 ← wsPlus r1
  let r3 ← litCI ['a', 's'] r2
  let r4 ← wsPlus r3
  let r5 ← litCI ['o', 'f'] r4
  wsPlus r5

/-- Python `re.sub(r'(?i)(date|data)\s+as\s+of\s+', '', text)`: scan left to
right, removing each non-overlapping match. -/
def reSubAsOf : List Char → List Char
  | [] => []
  | c :: cs =>
    match h : tryAsOf (c :: cs) with
    | some rest => reSubAsOf rest
    | none => c :: reSubAsOf cs
termination_by l => l.length
decreasing_by
  · have hlit : ∀ (p l r : List Char), litCI p l = some r → r.length ≤ l.length := by
      intro p
      induction p with
      | nil =>
        intro l r hl
        simp only [litCI, Option.some.injEq] at hl
        subst hl
        exact Nat.le_refl _
      | cons a ps ih =>
        intro l r hl
        cases l with
        | nil => simp [litCI] at hl
        | cons b bs =>
          simp only [litCI] at hl
          split at hl
          · have := ih bs r hl
            simp only [List.length_cons]
            omega
          · exact absurd hl (by simp)
    have hws : ∀ (l r : List Char), wsPlus l = some r → r.length < l.length := by
      intro l r hl
      cases l with
      | nil => simp [wsPlus] at hl
      | cons b bs =>
        simp only [wsPlus] at hl
        split at hl
        · obtain rfl : bs.dropWhile pyWs = r := by simpa using hl
          have hsub : (bs.dropWhile pyWs).length ≤ bs.length :=
            List.Sublist.length_le (List.dropWhile_sublist pyWs)
          simp only [List.length_cons]
          omega
        · exact absurd hl (by simp)
    simp only [tryAsOf, Option.bind_eq_bind, Option.bind_eq_some] at h
    obtain ⟨r1, h1, r2, h2, r3, h3, r4, h4, r5, h5, h6⟩ := h
    have e2 := hws _ _ h2
    have e3 := hlit _ _ _ h3
    have e4 := hws _ _ h4
    have e5 := hlit _ _ _ h5
    have e6 := hws _ _ h6
    rcases (Option.orElse_eq_some _ _ _).mp h1 with hh | ⟨-, hh⟩ <;>
    · have e1 := hlit _ _ _ hh
      simp only [List.length_cons] at e1 ⊢
      omega
  · simp

/-- Python `str.strip()` for the ASCII whitespace set. -/
def pstrip (l : List Char) : List Char :=
  ((l.dropWhile pyWs).reverse.dropWhile pyWs).reverse

/-- Python `.split(',')[0]`: the segment before the first comma. -/
def beforeComma (l : List Char) : List Char := l.takeWhile (fun c => c != ',')

/-- Numeric value of a digit character. -/
def digitVal (c : Char) : Nat := c.toNat - 48

/-- Digit test (`\d`, ASCII). -/
def isDig (c : Char) : Bool := 48 ≤ c.toNat && c.toNat ≤ 57

/-- The `%d` directive of `strptime`: CPython compiles it to the regex
`(3[01]|[12]\d|0[1-9]|[1-9])`, alternatives tried in that order. -/
def parseDay : List Char → Option (Nat × List Char)
  | c1 :: c2 :: rest =>
    if c1 = '3' ∧ (c2 = '0' ∨ c2 = '1') then some (30 + digitVal c2, rest)
    else if (c1 = '1' ∨ c1 = '2') ∧ isDig c2 then
      some (10 * digitVal c1 + digitVal c2, rest)
    else if c1 = '0' ∧ 49 ≤ c2.toNat ∧ c2.toNat ≤ 57 then some (digitVal c2, rest)
    else if 49 ≤ c1.toNat ∧ c1.toNat ≤ 57 then some (digitVal c1, c2 :: rest)
    else none
  | [c1] =>
    if 49 ≤ c1.toNat ∧ c1.toNat ≤ 57 then some (digitVal c1, []) else none
  | [] => none

/-- Month-abbreviation table for the `%b` directive (en locale),
matched case-insensitively as CPython's `_strptime` does. -/
def monthTable : List (List Char × Nat) :=
  [(['j', 'a', 'n'], 1), (['f', 'e', 'b'], 2), (['m', 'a', 'r'], 3),
   (['a', 'p', 'r'], 4), (['m', 'a', 'y'], 5), (['j', 'u', 'n'], 6),
   (['j', 'u', 'l'], 7), (['a', 'u', 'g'], 8), (['s', 'e', 'p'], 9),
   (['o', 'c', 't'], 10), (['n', 'o', 'v'], 11), (['d', 'e', 'c'], 12)]

/-- Try each month abbreviation in turn at the head of the input. -/
def lookupMonth : List (List Char × Nat) → List Char → Option (Nat × List Char)
  | [], _ => none
  | (pat, m) :: rest, l =>
    match litCI pat l with
    | some r => some (m, r)
    | none => lookupMonth rest l

/-- The `%Y` directive: exactly four digits (CPython regex `\d\d\d\d`). -/
def parseYear4 : List Char → Option (Nat × List Char)
  | a :: b :: c :: d :: rest =>
    if isDig a ∧ isDig b ∧ isDig c ∧ isDig d then
      some (((digitVal a * 10 + digitVal b) * 10 + digitVal c) * 10 + digitVal d, rest)
    else none
  | _ => none

/-- Python `datetime.strptime(cln, '%d %b %Y').date()`: day, whitespace, month
abbreviation, whitespace, four-digit year, nothing left over
("unconverted data remains" otherwise), then the `date` constructor's
range checks. -/
def strptime_dbY (l : List Char) : Option Date := do
  let (dd, r1) ← parseDay l
  let r2 ← wsPlus r1
  let (mm, r3) ← lookupMonth monthTable r2
  let r4 ← wsPlus r3
  let (yy, r5) ← parseYear4 r4
  if r5 = [] ∧ 1 ≤ yy ∧ yy ≤ 9999 ∧ 1 ≤ mm ∧ mm ≤ 12 ∧
      1 ≤ dd ∧ dd ≤ daysInMonth yy mm then
    some ⟨yy, mm, dd⟩
  else none

/-- The source's `parse_date(text)` (src lines 24-29): strip the `date|data as of`
prefix, truncate at the first comma, trim, then `strptime`; on any
failure return `(None, text)` with the original text. -/
def parse_date (text : String) : Option Date × String :=
  let cln := pstrip (beforeComma (pstrip (reSubAsOf text.data)))
  match strptime_dbY cln with
  | some d => (some d, String.mk cln)
  | none => (none, text)

/-- One extracted date record (an entry of `all_dates`, src line 83):
the parsed date `dt`, the cleaned display string `s`, and the lowercased
parent+grandparent context text `ctx`. -/
structure DRec where
  dt : Date
  s : String
  ctx : String
deriving DecidableEq

/-- The data a successful fetch contributes to one unit of work: the
extracted date records and the full page text (`soup.get_text()`). -/
structure Page where
  records : List DRec
  fullText : String
deriving DecidableEq

/-- The per-fund report dict (src line 67), one field per column. -/
structure Report where
  ticker : String
  nav : String
  holdings : String
  perf : String
  dist : String
deriving DecidableEq

/-- NAV bucket test (src line 89): context contains `nav` or `net asset`. -/
def navKey (x : DRec) : Bool := strIn "nav" x.ctx || strIn "net asset" x.ctx

/-- Performance bucket test (src line 94): context contains `return`. -/
def perfKey (x : DRec) : Bool := strIn "return" x.ctx

/-- Holdings bucket test (src line 99): `holding` or `characteristics`,
and not `return`. -/
def holdKey (x : DRec) : Bool :=
  (strIn "holding" x.ctx || strIn "characteristics" x.ctx) && !(strIn "return" x.ctx)

/-- One iteration of a bucket loop (src lines 88-100):
`if p x: if res is None or x['dt'] > res['dt']: res = x`. -/
def selStep (p : DRec → Bool) (acc : Option DRec) (x : DRec) : Option DRec :=
  if p x then
    match acc with
    | none => some x
    | some b => if b.dt.toordinal < x.dt.toordinal then some x else some b
  else acc

/-- A whole bucket loop: the qualifying record with the greatest date,
ties resolved to the earliest occurrence. -/
def selMax (p : DRec → Bool) (l : List DRec) : Option DRec := l.foldl (selStep p) none

/-- The source's `check_fund(ticker)` (src lines 63-118).  The fetch and the HTML
extraction are the model boundary: `some page` carries the extracted
records and page text of a successful fetch, `none` is the `except`
path, which leaves every column at `Checking...` except NAV = Error. -/
def check_fund (ticker : String) (now_syd : Date) (fetched : Option Page) : Report :=
  let exps := get_expectations ticker now_syd
  match fetched with
  | none => ⟨ticker, "❌ Error", "Checking...", "Checking...", "Checking..."⟩
  | some page =>
    let nav_res := selMax navKey page.records
    let perf_res := selMax perfKey page.records
    let hold_res := selMax holdKey page.records
    let navS :=
      match nav_res with
      | some r => if exps.1 ≤ r.dt.toordinal then "✅ " ++ r.s else "🔴 " ++ r.s ++ " (Late)"
      | none => "⚠️ Missing"
    let perfS :=
      match perf_res with
      | some r => if exps.1 ≤ r.dt.toordinal then "✅ " ++ r.s else "🔴 " ++ r.s ++ " (Late)"
      | none => "⚠️ Missing"
    let holdS :=
      match hold_res with
      | some r => if exps.2.1 ≤ r.dt.toordinal then "✅ " ++ r.s else "🔴 " ++ r.s ++ " (Late)"
      | none => "⚠️ Missing"
    let exp_s := strftime_dbY (fromordinal exps.2.2)
    let distS := if strIn exp_s page.fullText then "✅ " ++ exp_s else "⚠️ Missing"
    ⟨ticker, navS, holdS, perfS, distS⟩

/-- Comparison used by `sorted(results, key=lambda x: x['Ticker'])`. -/
def tickerLe (a b : Report) : Bool := strLeB a.ticker b.ticker

/-- The scan loop (src lines 142-150): every submitted unit of work runs
`check_fund`; results are collected in completion order — modelled by the
order of `completed` — and then sorted by ticker. -/
def run_scan (now_syd : Date) (completed : List (String × Option Page)) : List Report :=
  ((completed.map fun u => check_fund u.1 now_syd u.2)).mergeSort tickerLe

/-- Python `str.lower()` (ASCII inputs in this program). -/
def pyLower (s : String) : String := String.mk (s.data.map Char.toLower)

/-- Modelled from the spec: the case-insensitive substring comparison the
spec attributes to the distribution check ("anywhere in the full
lowercase-insensitive page text").  Stated only to compare against the
source's case-sensitive `strIn`; the source itself does not lowercase. -/
def ciOccurs (needle hay : String) : Bool := strIn (pyLower needle) (pyLower hay)

/-- A status string produced by a completed evaluation of one of the
NAV / performance / holdings columns (src lines 103-110): either the
`Missing` marker or an Ok / Late rendering of some record. -/
def evaluatedStatus (s : String) : Prop :=
  s = "⚠️ Missing" ∨ (∃ t, s = "✅ " ++ t) ∨ (∃ t, s = "🔴 " ++ t ++ " (Late)")

/-- A status string produced by the distribution check (src lines
112-115): `Missing` or Ok; no Late form exists for this column. -/
def distEvaluated (s : String) : Prop :=
  s = "⚠️ Missing" ∨ ∃ t, s = "✅ " ++ t

/-- A report all four columns of which were actually evaluated (no
`Checking...` placeholder and no `Error` marker). -/
def fullyEvaluated (rp : Report) : Prop :=
  evaluatedStatus rp.nav ∧ evaluatedStatus rp.perf ∧
    evaluatedStatus rp.holdings ∧ distEvaluated rp.dist

/-! ## Business-day stepping -/

lemma bdBetween_stop (a : Int) : bdBetween a a = 0 := by
  rw [bdBetween]
  simp

lemma bdBetween_step (a b : Int) (h : a < b) :
    bdBetween a b = (if wkd (b - 1) < 5 then 1 else 0) + bdBetween a (b - 1) := by
  rw [bdBetween]
  simp [h]

lemma get_last_bd_go_spec (curr : Int) (c n : Nat) :
    c < n →
      wkd (get_last_bd_go curr c n) < 5 ∧ get_last_bd_go curr c n < curr ∧
        bdBetween (get_last_bd_go curr c n) curr = n - c := by
  induction curr, c, n using get_last_bd_go.induct with
  | case1 curr c n h hw ih =>
    intro _
    rw [get_last_bd_go, if_pos h, if_pos hw]
    by_cases h2 : c + 1 < n
    · obtain ⟨i1, i2, i3⟩ := ih h2
      refine ⟨i1, by omega, ?_⟩
      rw [bdBetween_step _ _ (by omega), if_pos hw, i3]
      omega
    · rw [get_last_bd_go, if_neg (by omega)]
      refine ⟨hw, by omega, ?_⟩
      rw [bdBetween_step _ _ (by omega), if_pos hw, bdBetween_stop]
      omega
  | case2 curr c n h hw ih =>
    intro _
    rw [get_last_bd_go, if_pos h, if_neg hw]
    obtain ⟨i1, i2, i3⟩ := ih h
    refine ⟨i1, by omega, ?_⟩
    rw [bdBetween_step _ _ (by omega), if_neg hw, i3]
    omega
  | case3 curr c n h =>
    intro hc
    exact absurd hc h

lemma get_last_bd_spec (d : Int) (n : Nat) (h : 1 ≤ n) :
    wkd (get_last_bd d n) < 5 ∧ get_last_bd d n < d ∧ bdBetween (get_last_bd d n) d = n := by
  have := get_last_bd_go_spec d 0 n (by omega)
  simpa [get_last_bd] using this

lemma skipWeekBack_spec (o : Int) :
    wkd (skipWeekBack o) < 5 ∧ skipWeekBack o ≤ o := by
  induction o using skipWeekBack.induct with
  | case1 o h ih =>
    rw [skipWeekBack, if_pos h]
    exact ⟨ih.1, by omega⟩
  | case2 o h =>
    rw [skipWeekBack, if_neg h]
    simp only [wkd] at h ⊢
    omega

/-- C3 (amended): for every date `d` and every count `n ≥ 1`,
`get_last_bd` returns a date that falls on Monday–Friday, lies strictly
before `d`, and is exactly `n` business days before `d` (there are
exactly `n` weekdays among the calendar days from the result up to the
day before `d`).  For `n = 0` the primitive returns `d` itself, which
need not be a weekday. -/
theorem C3_get_last_bd_business_days (d : Int) (n : Nat) (h : 1 ≤ n) :
    wkd (get_last_bd d n) < 5 ∧ get_last_bd d n < d ∧
      bdBetween (get_last_bd d n) d = n :=
  get_last_bd_spec d n h

/-- Witness for C3: stepping two business days back from
Tuesday 2025-11-25. -/
theorem C3_get_last_bd_business_days_witness :
    wkd (get_last_bd (Date.toordinal ⟨2025, 11, 25⟩) 2) < 5 ∧
      get_last_bd (Date.toordinal ⟨2025, 11, 25⟩) 2 < Date.toordinal ⟨2025, 11, 25⟩ ∧
      bdBetween (get_last_bd (Date.toordinal ⟨2025, 11, 25⟩) 2)
        (Date.toordinal ⟨2025, 11, 25⟩) = 2 :=
  C3_get_last_bd_business_days (Date.toordinal ⟨2025, 11, 25⟩) 2 (by decide)

/-- Counterexample to C3 as stated: for `n = 0` the loop of
`get_last_bd` does not run at all and the input date is returned
unchanged, so on Saturday 2025-11-22 the result is that same Saturday,
not a Monday–Friday date. -/
theorem C3_counterexample_n_zero :
    get_last_bd (Date.toordinal ⟨2025, 11, 22⟩) 0 = Date.toordinal ⟨2025, 11, 22⟩ ∧
      ¬ wkd (get_last_bd (Date.toordinal ⟨2025, 11, 22⟩) 0) < 5 := by
  have h : get_last_bd (Date.toordinal ⟨2025, 11, 22⟩) 0 = Date.toordinal ⟨2025, 11, 22⟩ := by
    rw [get_last_bd, get_last_bd_go]
    simp
  refine ⟨h, ?_⟩
  rw [h]
  decide

/-- C4 (amended): provided the scan's current date itself falls on
Monday–Friday, all three deadlines of `get_expectations` — NAV,
holdings and distribution — fall on Monday–Friday, for every ticker.
(The NAV and distribution deadlines are weekdays unconditionally; the
holdings deadline of a non-exception fund is the current date itself,
so it is a weekday exactly when the current date is.) -/
theorem C4_expectation_weekdays (ticker : String) (today : Date)
    (h : wkd today.toordinal < 5) :
    wkd (get_expectations ticker today).1 < 5 ∧
      wkd (get_expectations ticker today).2.1 < 5 ∧
      wkd (get_expectations ticker today).2.2 < 5 := by
  unfold get_expectations
  split_ifs with hex
  · exact ⟨(get_last_bd_spec _ 2 (by omega)).1, (get_last_bd_spec _ 1 (by omega)).1,
      (skipWeekBack_spec _).1⟩
  · exact ⟨(get_last_bd_spec _ 1 (by omega)).1, h, (skipWeekBack_spec _).1⟩

/-- Witness for C4: a non-exception ticker on Tuesday 2025-11-25. -/
theorem C4_expectation_weekdays_witness :
    wkd (get_expectations "ACDC" ⟨2025, 11, 25⟩).1 < 5 ∧
      wkd (get_expectations "ACDC" ⟨2025, 11, 25⟩).2.1 < 5 ∧
      wkd (get_expectations "ACDC" ⟨2025, 11, 25⟩).2.2 < 5 :=
  C4_expectation_weekdays "ACDC" ⟨2025, 11, 25⟩ (by decide)

/-- Counterexample to C4 as stated: for a non-exception ticker scanned
on Saturday 2025-11-22, the holdings deadline is the current date
itself, a Saturday — not a Monday–Friday date. -/
theorem C4_counterexample_weekend :
    (get_expectations "ACDC" ⟨2025, 11, 22⟩).2.1 = Date.toordinal ⟨2025, 11, 22⟩ ∧
      wkd (Date.toordinal ⟨2025, 11, 22⟩) = 5 := by
  constructor
  · decide
  · decide

/-! ## Ticker discovery fallback (C5) -/

/-- Counterexample to C5 as stated: on discovery failure the code
returns `FORCE_LIST + ['ACDC', 'BANK']`, a plain concatenation that is
not in sorted order (the fallback entries sort before the force-include
entries), and in particular differs from the sorted arrangement of the
same six identifiers. -/
theorem C5_counterexample_unsorted :
    get_all_tickers none = ["ETPMAG", "ETPMPD", "ETPMPM", "ETPMPT", "ACDC", "BANK"] ∧
      ¬ List.Pairwise (fun a b => strLeB a b = true) (get_all_tickers none) ∧
      get_all_tickers none ≠ ["ACDC", "BANK", "ETPMAG", "ETPMPD", "ETPMPM", "ETPMPT"] := by
  refine ⟨rfl, ?_, by decide⟩
  decide

/-- C5 (amended): when the discovery fetch or pattern extraction fails,
`get_all_tickers` returns exactly the configured force-include list
followed by the two fixed fallback entries, in that concatenation order
(not sorted); as a set it is exactly the force-include entries plus the
fallback entries. -/
theorem C5_fallback_list :
    get_all_tickers none = FORCE_LIST ++ ["ACDC", "BANK"] ∧
      ∀ t, t ∈ get_all_tickers none ↔
        (t ∈ FORCE_LIST ∨ t ∈ (["ACDC", "BANK"] : List String)) := by
  refine ⟨rfl, fun t => ?_⟩
  exact List.mem_append

/-! ## Bucket selection (C10, C1, C2) -/

lemma foldl_selStep_some (p : DRec → Bool) :
    ∀ (l : List DRec) (b r : DRec),
      l.foldl (selStep p) (some b) = some r ↔
        ((r = b ∧ ∀ x ∈ l, p x = true → x.dt.toordinal ≤ b.dt.toordinal) ∨
          (∃ l₁ l₂, l = l₁ ++ r :: l₂ ∧ p r = true ∧
            b.dt.toordinal < r.dt.toordinal ∧
            (∀ x ∈ l₁, p x = true → x.dt.toordinal < r.dt.toordinal) ∧
            (∀ x ∈ l₂, p x = true → x.dt.toordinal ≤ r.dt.toordinal))) := by
  intro l
  induction l with
  | nil =>
    intro b r
    simp only [List.foldl_nil, Option.some.injEq]
    constructor
    · rintro rfl
      exact Or.inl ⟨rfl, by simp⟩
    · rintro (⟨rfl, -⟩ | ⟨l₁, l₂, hl, -⟩)
      · rfl
      · exact absurd hl (by simp)
  | cons y l ih =>
    intro b r
    rw [List.foldl_cons]
    by_cases hy : p y = true
    · by_cases hlt : b.dt.toordinal < y.dt.toordinal
      · -- the accumulator is replaced by `y`
        have hstep : selStep p (some b) y = some y := by
          simp [selStep, hy, hlt]
        rw [hstep, ih]
        constructor
        · rintro (⟨rfl, hall⟩ | ⟨l₁, l₂, rfl, hr, hyr, h₁, h₂⟩)
          · exact Or.inr ⟨[], l, rfl, hy, hlt, by simp, hall⟩
          · exact Or.inr ⟨y :: l₁, l₂, rfl, hr, by omega, by
              intro x hx
              rcases List.mem_cons.mp hx with rfl | hx
              · intro _; omega
              · exact h₁ x hx, h₂⟩
        · rintro (⟨rfl, hall⟩ | ⟨l₁, l₂, hl, hr, hbr, h₁, h₂⟩)
          · exact absurd (hall y (by simp) hy) (by omega)
          · cases l₁ with
            | nil =>
              obtain ⟨rfl, rfl⟩ : y = r ∧ l = l₂ := by
                simpa using hl
              exact Or.inl ⟨rfl, h₂⟩
            | cons y' l₁ =>
              obtain ⟨rfl, rfl⟩ : y = y' ∧ l = l₁ ++ r :: l₂ := by
                constructor
                · have := congrArg (fun t => t.head?) hl
                  simpa using this
                · have := congrArg (fun t => t.tail) hl
                  simpa using this
              exact Or.inr ⟨l₁, l₂, rfl, hr,
                h₁ y (by simp) hy, fun x hx => h₁ x (by simp [hx]), h₂⟩
      · -- `y` qualifies but does not beat the accumulator
        have hstep : selStep p (some b) y = some b := by
          simp [selStep, hy, hlt]
        rw [hstep, ih]
        constructor
        · rintro (⟨rfl, hall⟩ | ⟨l₁, l₂, rfl, hr, hbr, h₁, h₂⟩)
          · refine Or.inl ⟨rfl, ?_⟩
            intro x hx hpx
            rcases List.mem_cons.mp hx with rfl | hx
            · omega
            · exact hall x hx hpx
          · exact Or.inr ⟨y :: l₁, l₂, rfl, hr, hbr, by
              intro x hx
              rcases List.mem_cons.mp hx with rfl | hx
              · intro _; omega
              · exact h₁ x hx, h₂⟩
        · rintro (⟨rfl, hall⟩ | ⟨l₁, l₂, hl, hr, hbr, h₁, h₂⟩)
          · exact Or.inl ⟨rfl, fun x hx hpx => hall x (by simp [hx]) hpx⟩
          · cases l₁ with
            | nil =>
              obtain ⟨rfl, rfl⟩ : y = r ∧ l = l₂ := by simpa using hl
              exact absurd hbr (by omega)
            | cons y' l₁ =>
              obtain ⟨rfl, rfl⟩ : y = y' ∧ l = l₁ ++ r :: l₂ := by
                constructor
                · have := congrArg (fun t => t.head?) hl
                  simpa using this
                · have := congrArg (fun t => t.tail) hl
                  simpa using this
              exact Or.inr ⟨l₁, l₂, rfl, hr, hbr,
                fun x hx => h₁ x (by simp [hx]), h₂⟩
    · -- `y` does not qualify: the accumulator is untouched
      have hstep : selStep p (some b) y = some b := by
        simp [selStep, hy]
      rw [hstep, ih]
      constructor
      · rintro (⟨rfl, hall⟩ | ⟨l₁, l₂, rfl, hr, hbr, h₁, h₂⟩)
        · refine Or.inl ⟨rfl, ?_⟩
          intro x hx hpx
          rcases List.mem_cons.mp hx with rfl | hx
          · exact absurd hpx (by simp [hy])
          · exact hall x hx hpx
        · exact Or.inr ⟨y :: l₁, l₂, rfl, hr, hbr, by
            intro x hx
            rcases List.mem_cons.mp hx with rfl | hx
            · intro hpx; exact absurd hpx (by simp [hy])
            · exact h₁ x hx, h₂⟩
      · rintro (⟨rfl, hall⟩ | ⟨l₁, l₂, hl, hr, hbr, h₁, h₂⟩)
        · exact Or.inl ⟨rfl, fun x hx hpx => hall x (by simp [hx]) hpx⟩
        · cases l₁ with
          | nil =>
            obtain ⟨rfl, rfl⟩ : y = r ∧ l = l₂ := by simpa using hl
            exact absurd hr (by simp [hy])
          | cons y' l₁ =>
            obtain ⟨rfl, rfl⟩ : y = y' ∧ l = l₁ ++ r :: l₂ := by
              constructor
              · have := congrArg (fun t => t.head?) hl
                simpa using this
              · have := congrArg (fun t => t.tail) hl
                simpa using this
            exact Or.inr ⟨l₁, l₂, rfl, hr, hbr,
              fun x hx => h₁ x (by simp [hx]), h₂⟩

lemma selMax_eq_some_iff (p : DRec → Bool) :
    ∀ (l : List DRec) (r : DRec),
      selMax p l = some r ↔
        ∃ l₁ l₂, l = l₁ ++ r :: l₂ ∧ p r = true ∧
          (∀ x ∈ l₁, p x = true → x.dt.toordinal < r.dt.toordinal) ∧
          (∀ x ∈ l₂, p x = true → x.dt.toordinal ≤ r.dt.toordinal) := by
  intro l
  induction l with
  | nil =>
    intro r
    simp only [selMax, List.foldl_nil]
    constructor
    · intro h; cases h
    · rintro ⟨l₁, l₂, hl, -⟩
      exact absurd hl (by simp)
  | cons y l ih =>
    intro r
    by_cases hy : p y = true
    · have hstep : selStep p none y = some y := by simp [selStep, hy]
      rw [selMax, List.foldl_cons, hstep, foldl_selStep_some]
      constructor
      · rintro (⟨rfl, hall⟩ | ⟨l₁, l₂, rfl, hr, hyr, h₁, h₂⟩)
        · exact ⟨[], l, rfl, hy, by simp, hall⟩
        · exact ⟨y :: l₁, l₂, rfl, hr, by
            intro x hx
            rcases List.mem_cons.mp hx with rfl | hx
            · intro _; omega
            · exact h₁ x hx, h₂⟩
      · rintro ⟨l₁, l₂, hl, hr, h₁, h₂⟩
        cases l₁ with
        | nil =>
          obtain ⟨rfl, rfl⟩ : y = r ∧ l = l₂ := by simpa using hl
          exact Or.inl ⟨rfl, h₂⟩
        | cons y' l₁ =>
          obtain ⟨rfl, rfl⟩ : y = y' ∧ l = l₁ ++ r :: l₂ := by
            constructor
            · have := congrArg (fun t => t.head?) hl
              simpa using this
            · have := congrArg (fun t => t.tail) hl
              simpa using this
          exact Or.inr ⟨l₁, l₂, rfl, hr, h₁ y (by simp) hy,
            fun x hx => h₁ x (by simp [hx]), h₂⟩
    · have hstep : selStep p none y = none := by simp [selStep, hy]
      rw [selMax, List.foldl_cons, hstep]
      rw [show (List.foldl (selStep p) none l = some r) ↔ (selMax p l = some r) from Iff.rfl, ih]
      constructor
      · rintro ⟨l₁, l₂, rfl, hr, h₁, h₂⟩
        exact ⟨y :: l₁, l₂, rfl, hr, by
          intro x hx
          rcases List.mem_cons.mp hx with rfl | hx
          · intro hpx; exact absurd hpx (by simp [hy])
          · exact h₁ x hx, h₂⟩
      · rintro ⟨l₁, l₂, hl, hr, h₁, h₂⟩
        cases l₁ with
        | nil =>
          obtain ⟨rfl, rfl⟩ : y = r ∧ l = l₂ := by simpa using hl
          exact absurd hr (by simp [hy])
        | cons y' l₁ =>
          obtain ⟨rfl, rfl⟩ : y = y' ∧ l = l₁ ++ r :: l₂ := by
            constructor
            · have := congrArg (fun t => t.head?) hl
              simpa using this
            · have := congrArg (fun t => t.tail) hl
              simpa using this
          exact ⟨l₁, l₂, rfl, hr, fun x hx => h₁ x (by simp [hx]), h₂⟩

/-- C10: each bucket loop keeps a new candidate only under the strict
comparison `x['dt'] > res['dt']`, so `selMax p` (instantiated at
`navKey`, `perfKey`, `holdKey` in `check_fund`) selects precisely the
first qualifying record that attains the maximal extracted date: every
earlier qualifier is strictly older and every later qualifier is no
newer.  In particular the selection is a deterministic function of the
record list including its order. -/
theorem C10_selection_first_of_maximal (p : DRec → Bool) (l : List DRec) (r : DRec) :
    selMax p l = some r ↔
      ∃ l₁ l₂, l = l₁ ++ r :: l₂ ∧ p r = true ∧
        (∀ x ∈ l₁, p x = true → x.dt.toordinal < r.dt.toordinal) ∧
        (∀ x ∈ l₂, p x = true → x.dt.toordinal ≤ r.dt.toordinal) :=
  selMax_eq_some_iff p l r

/-- Witness for C10: two NAV records share the maximal date; the one
occurring first in document order is selected. -/
theorem C10_selection_first_of_maximal_witness :
    selMax navKey
        [⟨⟨2025, 11, 24⟩, "first", "nav"⟩, ⟨⟨2025, 11, 24⟩, "second", "nav"⟩] =
      some ⟨⟨2025, 11, 24⟩, "first", "nav"⟩ :=
  (C10_selection_first_of_maximal navKey
      [⟨⟨2025, 11, 24⟩, "first", "nav"⟩, ⟨⟨2025, 11, 24⟩, "second", "nav"⟩]
      ⟨⟨2025, 11, 24⟩, "first", "nav"⟩).mpr
    ⟨[], [⟨⟨2025, 11, 24⟩, "second", "nav"⟩], rfl, by decide, by decide, by decide⟩

lemma foldl_selStep_some_isSome (p : DRec → Bool) :
    ∀ (l : List DRec) (b : DRec), (l.foldl (selStep p) (some b)).isSome = true := by
  intro l
  induction l with
  | nil => intro b; rfl
  | cons y l ih =>
    intro b
    rw [List.foldl_cons]
    by_cases hy : p y = true
    · by_cases hlt : b.dt.toordinal < y.dt.toordinal
      · rw [show selStep p (some b) y = some y from by simp [selStep, hy, hlt]]
        exact ih y
      · rw [show selStep p (some b) y = some b from by simp [selStep, hy, hlt]]
        exact ih b
    · rw [show selStep p (some b) y = some b from by simp [selStep, hy]]
      exact ih b

lemma selMax_isSome_iff (p : DRec → Bool) :
    ∀ l : List DRec, (selMax p l).isSome = true ↔ ∃ x ∈ l, p x = true := by
  intro l
  induction l with
  | nil => simp [selMax]
  | cons y l ih =>
    by_cases hy : p y = true
    · rw [selMax, List.foldl_cons, show selStep p none y = some y from by simp [selStep, hy]]
      simp only [foldl_selStep_some_isSome, true_iff]
      exact ⟨y, by simp, hy⟩
    · rw [selMax, List.foldl_cons, show selStep p none y = none from by simp [selStep, hy]]
      rw [show List.foldl (selStep p) none l = selMax p l from rfl, ih]
      constructor
      · rintro ⟨x, hx, hpx⟩
        exact ⟨x, by simp [hx], hpx⟩
      · rintro ⟨x, hx, hpx⟩
        rcases List.mem_cons.mp hx with rfl | hx
        · exact absurd hpx (by simp [hy])
        · exact ⟨x, hx, hpx⟩

/-- C1 (amended): in the code a `DateRecord` qualifies for the NAV
bucket if and only if its context text contains `"nav"` or
`"net asset"` — the source applies no `"holding"` exclusion, no
`"characteristics"` exclusion and no current-date exclusion.  The NAV
selection is nonempty exactly when such a record exists, and the
selected record is such a record of maximal extracted date. -/
theorem C1_nav_qualification (l : List DRec) :
    ((selMax navKey l).isSome = true ↔
        ∃ x ∈ l, (strIn "nav" x.ctx || strIn "net asset" x.ctx) = true) ∧
      ∀ r, selMax navKey l = some r →
        (strIn "nav" r.ctx || strIn "net asset" r.ctx) = true ∧ r ∈ l ∧
          ∀ x ∈ l, (strIn "nav" x.ctx || strIn "net asset" x.ctx) = true →
            x.dt.toordinal ≤ r.dt.toordinal := by
  refine ⟨selMax_isSome_iff navKey l, fun r hr => ?_⟩
  obtain ⟨l₁, l₂, rfl, hq, h₁, h₂⟩ := (selMax_eq_some_iff navKey l r).mp hr
  refine ⟨hq, by simp, fun x hx hpx => ?_⟩
  rcases List.mem_append.mp hx with hx | hx
  · exact le_of_lt (h₁ x hx hpx)
  · rcases List.mem_cons.mp hx with rfl | hx
    · exact le_refl _
    · exact h₂ x hx hpx

/-- Witness for C1: a single record whose context holds `nav`. -/
theorem C1_nav_qualification_witness :
    (strIn "nav" "fund nav table" || strIn "net asset" "fund nav table") = true ∧
      (⟨⟨2025, 11, 24⟩, "24 Nov 2025", "fund nav table"⟩ : DRec) ∈
        [(⟨⟨2025, 11, 24⟩, "24 Nov 2025", "fund nav table"⟩ : DRec)] ∧
      ∀ x ∈ [(⟨⟨2025, 11, 24⟩, "24 Nov 2025", "fund nav table"⟩ : DRec)],
        (strIn "nav" x.ctx || strIn "net asset" x.ctx) = true →
          x.dt.toordinal ≤ (⟨2025, 11, 24⟩ : Date).toordinal :=
  (C1_nav_qualification [⟨⟨2025, 11, 24⟩, "24 Nov 2025", "fund nav table"⟩]).2
    ⟨⟨2025, 11, 24⟩, "24 Nov 2025", "fund nav table"⟩ (by decide)

/-- Counterexample to C1 as stated: a record whose context contains
both `nav` and `holding` does qualify in the code and is selected as
the NAV bucket record (the claimed `holding` exclusion does not exist
at src lines 88-90). -/
theorem C1_counterexample_nav_holding :
    strIn "nav" "daily nav holding table" = true ∧
      strIn "holding" "daily nav holding table" = true ∧
      selMax navKey [⟨⟨2025, 11, 24⟩, "24 Nov 2025", "daily nav holding table"⟩] =
        some ⟨⟨2025, 11, 24⟩, "24 Nov 2025", "daily nav holding table"⟩ := by
  decide

/-! ## Status strings and `check_fund` projections -/

lemma ok_ne_missing (s : String) : ("✅ " ++ s) ≠ "⚠️ Missing" := by
  intro h
  have h2 : ("✅ " ++ s).data.head? = ("⚠️ Missing" : String).data.head? := by rw [h]
  rw [String.data_append] at h2
  simp at h2

lemma ok_ne_checking (s : String) : ("✅ " ++ s) ≠ "Checking..." := by
  intro h
  have h2 : ("✅ " ++ s).data.head? = ("Checking..." : String).data.head? := by rw [h]
  rw [String.data_append] at h2
  simp at h2

lemma late_ne_missing (s : String) : ("🔴 " ++ s ++ " (Late)") ≠ "⚠️ Missing" := by
  intro h
  have h2 : ("🔴 " ++ s ++ " (Late)").data.head? = ("⚠️ Missing" : String).data.head? := by
    rw [h]
  rw [String.data_append, String.data_append] at h2
  simp at h2

lemma ok_ne_late (s t : String) : ("✅ " ++ s) ≠ ("🔴 " ++ t ++ " (Late)") := by
  intro h
  have h2 : ("✅ " ++ s).data.head? = ("🔴 " ++ t ++ " (Late)").data.head? := by rw [h]
  rw [String.data_append, String.data_append, String.data_append] at h2
  simp at h2

lemma check_fund_err (t : String) (today : Date) :
    check_fund t today none =
      ⟨t, "❌ Error", "Checking...", "Checking...", "Checking..."⟩ := rfl

lemma check_fund_ticker (t : String) (today : Date) (f : Option Page) :
    (check_fund t today f).ticker = t := by
  cases f <;> rfl

lemma check_fund_nav (t : String) (today : Date) (page : Page) :
    (check_fund t today (some page)).nav =
      match selMax navKey page.records with
      | some r =>
        if (get_expectations t today).1 ≤ r.dt.toordinal then "✅ " ++ r.s
        else "🔴 " ++ r.s ++ " (Late)"
      | none => "⚠️ Missing" := rfl

lemma check_fund_perf (t : String) (today : Date) (page : Page) :
    (check_fund t today (some page)).perf =
      match selMax perfKey page.records with
      | some r =>
        if (get_expectations t today).1 ≤ r.dt.toordinal then "✅ " ++ r.s
        else "🔴 " ++ r.s ++ " (Late)"
      | none => "⚠️ Missing" := rfl

lemma check_fund_holdings (t : String) (today : Date) (page : Page) :
    (check_fund t today (some page)).holdings =
      match selMax holdKey page.records with
      | some r =>
        if (get_expectations t today).2.1 ≤ r.dt.toordinal then "✅ " ++ r.s
        else "🔴 " ++ r.s ++ " (Late)"
      | none => "⚠️ Missing" := rfl

lemma check_fund_dist (t : String) (today : Date) (page : Page) :
    (check_fund t today (some page)).dist =
      (if strIn (strftime_dbY (fromordinal (get_expectations t today).2.2)) page.fullText
        then "✅ " ++ strftime_dbY (fromordinal (get_expectations t today).2.2)
        else "⚠️ Missing") := rfl

lemma exp_nav_lt_today (tick : String) (today : Date) :
    (get_expectations tick today).1 < today.toordinal := by
  unfold get_expectations
  split_ifs with hex
  · exact (get_last_bd_spec _ 2 (by omega)).2.1
  · exact (get_last_bd_spec _ 1 (by omega)).2.1

/-- C2 (amended): the code applies no current-date exclusion to the NAV
bucket (src lines 88-90), so a NAV-context record dated the scan's
current date is selected, and since the NAV deadline always lies
strictly before the current date, a fund whose only NAV-context record
is dated the current date gets `navStatus = Ok` — not `Missing`. -/
theorem C2_today_record_gives_ok (tick : String) (today : Date) (s ctx txt : String)
    (h : navKey ⟨today, s, ctx⟩ = true) :
    selMax navKey [⟨today, s, ctx⟩] = some ⟨today, s, ctx⟩ ∧
      (check_fund tick today (some ⟨[⟨today, s, ctx⟩], txt⟩)).nav = "✅ " ++ s := by
  have hsel : selMax navKey [⟨today, s, ctx⟩] = some ⟨today, s, ctx⟩ := by
    simp [selMax, selStep, h]
  refine ⟨hsel, ?_⟩
  rw [check_fund_nav]
  show (match selMax navKey [⟨today, s, ctx⟩] with
    | some r =>
      if (get_expectations tick today).1 ≤ r.dt.toordinal then "✅ " ++ r.s
      else "🔴 " ++ r.s ++ " (Late)"
    | none => "⚠️ Missing") = "✅ " ++ s
  rw [hsel]
  have := exp_nav_lt_today tick today
  simp only []
  rw [if_pos (by omega)]

/-- Witness for C2: a sole `nav`-context record dated the current date
Tuesday 2025-11-25 yields an Ok NAV status. -/
theorem C2_today_record_gives_ok_witness :
    selMax navKey [⟨⟨2025, 11, 25⟩, "25 Nov 2025", "intraday nav"⟩] =
        some ⟨⟨2025, 11, 25⟩, "25 Nov 2025", "intraday nav"⟩ ∧
      (check_fund "ACDC" ⟨2025, 11, 25⟩
          (some ⟨[⟨⟨2025, 11, 25⟩, "25 Nov 2025", "intraday nav"⟩], ""⟩)).nav =
        "✅ " ++ "25 Nov 2025" :=
  C2_today_record_gives_ok "ACDC" ⟨2025, 11, 25⟩ "25 Nov 2025" "intraday nav" ""
    (by decide)

/-- Counterexample to C2 as stated: the record selected for the NAV
bucket is dated the scan's current date, and the resulting `navStatus`
is Ok rather than `Missing`. -/
theorem C2_counterexample_today_not_excluded :
    selMax navKey [⟨⟨2025, 11, 25⟩, "25 Nov 2025", "nav"⟩] =
        some ⟨⟨2025, 11, 25⟩, "25 Nov 2025", "nav"⟩ ∧
      (⟨⟨2025, 11, 25⟩, "25 Nov 2025", "nav"⟩ : DRec).dt = ⟨2025, 11, 25⟩ ∧
      (check_fund "ACDC" ⟨2025, 11, 25⟩
          (some ⟨[⟨⟨2025, 11, 25⟩, "25 Nov 2025", "nav"⟩], ""⟩)).nav ≠ "⚠️ Missing" := by
  refine ⟨by decide, rfl, ?_⟩
  rw [check_fund_nav]
  show (match selMax navKey [⟨⟨2025, 11, 25⟩, "25 Nov 2025", "nav"⟩] with
    | some r =>
      if (get_expectations "ACDC" ⟨2025, 11, 25⟩).1 ≤ r.dt.toordinal then "✅ " ++ r.s
      else "🔴 " ++ r.s ++ " (Late)"
    | none => "⚠️ Missing") ≠ "⚠️ Missing"
  rw [show selMax navKey [⟨⟨2025, 11, 25⟩, "25 Nov 2025", "nav"⟩] =
      some ⟨⟨2025, 11, 25⟩, "25 Nov 2025", "nav"⟩ from by decide]
  have := exp_nav_lt_today "ACDC" ⟨2025, 11, 25⟩
  simp only []
  rw [if_pos (by omega)]
  exact ok_ne_missing _

/-- C6 (amended): for a fetched page, `distStatus` is Ok iff the
distribution deadline formatted as `%d %b %Y` occurs as a substring of
the full page text under the code's case-sensitive comparison
(`exp_s in soup.get_text()`, src line 114 — the page text is not
lowercased), and `Missing` otherwise; no Late value exists for the
distribution column. -/
theorem C6_dist_presence_case_sensitive (tick : String) (today : Date) (page : Page) :
    ((check_fund tick today (some page)).dist =
        "✅ " ++ strftime_dbY (fromordinal (get_expectations tick today).2.2) ↔
      strIn (strftime_dbY (fromordinal (get_expectations tick today).2.2))
          page.fullText = true) ∧
      ((check_fund tick today (some page)).dist = "⚠️ Missing" ↔
        ¬ strIn (strftime_dbY (fromordinal (get_expectations tick today).2.2))
            page.fullText = true) := by
  rw [check_fund_dist]
  by_cases hs : strIn (strftime_dbY (fromordinal (get_expectations tick today).2.2))
      page.fullText = true
  · rw [if_pos hs]
    refine ⟨by simp [hs], ?_, ?_⟩
    · intro h
      exact absurd h (ok_ne_missing _)
    · intro h
      exact absurd hs h
  · rw [if_neg hs]
    refine ⟨⟨?_, ?_⟩, by simp [hs]⟩
    · intro h
      exact absurd h.symm (ok_ne_missing _)
    · intro h
      exact absurd h hs

/-- Counterexample to C6 as stated: for the scan date Tuesday
2025-11-25 the distribution deadline is Friday 2025-10-31, formatted
`31 Oct 2025`.  A page whose text contains `31 OCT 2025` matches under
case-insensitive comparison, yet the code's case-sensitive search fails
and `distStatus` is `Missing`, refuting the claimed case-insensitive
iff. -/
theorem C6_counterexample_case_sensitivity :
    ciOccurs "31 Oct 2025" "31 OCT 2025" = true ∧
      strftime_dbY (fromordinal (get_expectations "ACDC" ⟨2025, 11, 25⟩).2.2) =
        "31 Oct 2025" ∧
      (check_fund "ACDC" ⟨2025, 11, 25⟩ (some ⟨[], "31 OCT 2025"⟩)).dist =
        "⚠️ Missing" := by
  have h1 : (get_expectations "ACDC" ⟨2025, 11, 25⟩).2.2 = 739555 := by
    rw [show (get_expectations "ACDC" ⟨2025, 11, 25⟩).2.2 =
        skipWeekBack (Date.toordinal ⟨2025, 11, 1⟩ - 1) from rfl]
    rw [show Date.toordinal ⟨2025, 11, 1⟩ - 1 = (739555 : Int) from by decide]
    rw [skipWeekBack, if_neg (by decide)]
  refine ⟨by decide, ?_, ?_⟩
  · rw [h1]
    decide
  · rw [check_fund_dist, h1]
    rw [show strftime_dbY (fromordinal (739555 : Int)) = "31 Oct 2025" from by decide]
    rw [if_neg (by decide)]

/-- C8: the performance status is evaluated against the NAV deadline
`exp_nav` (src line 106), not the holdings deadline: with a selected
performance record `r`, the column is Ok iff `r`'s date is at least
`exp_nav` and Late iff it is earlier; with no qualifying record it is
`Missing`. -/
theorem C8_perf_against_nav_deadline (tick : String) (today : Date) (page : Page) :
    (∀ r, selMax perfKey page.records = some r →
      (((check_fund tick today (some page)).perf = "✅ " ++ r.s ↔
          (get_expectations tick today).1 ≤ r.dt.toordinal) ∧
        ((check_fund tick today (some page)).perf = "🔴 " ++ r.s ++ " (Late)" ↔
          r.dt.toordinal < (get_expectations tick today).1))) ∧
      (selMax perfKey page.records = none →
        (check_fund tick today (some page)).perf = "⚠️ Missing") := by
  constructor
  · intro r hr
    rw [check_fund_perf, hr]
    by_cases hc : (get_expectations tick today).1 ≤ r.dt.toordinal
    · rw [show (match some r with
        | some r =>
          if (get_expectations tick today).1 ≤ r.dt.toordinal then "✅ " ++ r.s
          else "🔴 " ++ r.s ++ " (Late)"
        | none => "⚠️ Missing") =
          (if (get_expectations tick today).1 ≤ r.dt.toordinal then "✅ " ++ r.s
            else "🔴 " ++ r.s ++ " (Late)") from rfl]
      rw [if_pos hc]
      refine ⟨by simp [hc], ?_, ?_⟩
      · intro h
        exact absurd h (ok_ne_late _ _)
      · intro h
        exact absurd hc (by omega)
    · rw [show (match some r with
        | some r =>
          if (get_expectations tick today).1 ≤ r.dt.toordinal then "✅ " ++ r.s
          else "🔴 " ++ r.s ++ " (Late)"
        | none => "⚠️ Missing") =
          (if (get_expectations tick today).1 ≤ r.dt.toordinal then "✅ " ++ r.s
            else "🔴 " ++ r.s ++ " (Late)") from rfl]
      rw [if_neg hc]
      refine ⟨⟨?_, ?_⟩, by
        constructor
        · intro _; omega
        · intro _; rfl⟩
      · intro h
        exact absurd h.symm (ok_ne_late _ _)
      · intro h
        exact absurd h hc
  · intro hnone
    rw [check_fund_perf, hnone]

/-- Witness for C8: a single on-time `return`-context record dated one
business day before Tuesday 2025-11-25 gives an Ok performance status. -/
theorem C8_perf_against_nav_deadline_witness :
    ((check_fund "ACDC" ⟨2025, 11, 25⟩
          (some ⟨[⟨⟨2025, 11, 24⟩, "24 Nov 2025", "fund returns"⟩], ""⟩)).perf =
        "✅ " ++ "24 Nov 2025" ↔
      (get_expectations "ACDC" ⟨2025, 11, 25⟩).1 ≤
        Date.toordinal ⟨2025, 11, 24⟩) ∧
      ((check_fund "ACDC" ⟨2025, 11, 25⟩
            (some ⟨[⟨⟨2025, 11, 24⟩, "24 Nov 2025", "fund returns"⟩], ""⟩)).perf =
          "🔴 " ++ "24 Nov 2025" ++ " (Late)" ↔
        Date.toordinal ⟨2025, 11, 24⟩ < (get_expectations "ACDC" ⟨2025, 11, 25⟩).1) :=
  (C8_perf_against_nav_deadline "ACDC" ⟨2025, 11, 25⟩
      ⟨[⟨⟨2025, 11, 24⟩, "24 Nov 2025", "fund returns"⟩], ""⟩).1
    ⟨⟨2025, 11, 24⟩, "24 Nov 2025", "fund returns"⟩ (by decide)

/-! ## Scan orchestration (C7) -/

lemma lexLt_cons_iff (x y : Char) (xs ys : List Char) :
    lexLt (x :: xs) (y :: ys) = true ↔
      x.toNat < y.toNat ∨ (x.toNat = y.toNat ∧ lexLt xs ys = true) := by
  simp only [lexLt]
  split_ifs with h1 h2
  · simp
    omega
  · simp
    omega
  · constructor
    · intro h
      exact Or.inr ⟨by omega, h⟩
    · rintro (h | ⟨-, h⟩)
      · omega
      · exact h

lemma lexLt_asymm : ∀ a b : List Char, lexLt a b = true → lexLt b a = false := by
  intro a
  induction a with
  | nil =>
    intro b h
    cases b <;> rfl
  | cons x xs ih =>
    intro b h
    cases b with
    | nil => simp [lexLt] at h
    | cons y ys =>
      rcases (lexLt_cons_iff x y xs ys).mp h with h1 | ⟨h1, h2⟩
      · rw [show (lexLt (y :: ys) (x :: xs) = false) ↔
          ¬ lexLt (y :: ys) (x :: xs) = true from by simp]
        rw [lexLt_cons_iff]
        push_neg
        refine ⟨by omega, fun _ => ?_⟩
        omega
      · rw [show (lexLt (y :: ys) (x :: xs) = false) ↔
          ¬ lexLt (y :: ys) (x :: xs) = true from by simp]
        rw [lexLt_cons_iff]
        push_neg
        refine ⟨by omega, fun _ => ?_⟩
        rw [ih ys h2]
        simp

lemma lexLt_conn : ∀ a b : List Char, lexLt a b = false → lexLt b a = false → a = b := by
  intro a
  induction a with
  | nil =>
    intro b h1 _
    cases b with
    | nil => rfl
    | cons y ys => simp [lexLt] at h1
  | cons x xs ih =>
    intro b h1 h2
    cases b with
    | nil => simp [lexLt] at h2
    | cons y ys =>
      have k1 : ¬ (x.toNat < y.toNat ∨ (x.toNat = y.toNat ∧ lexLt xs ys = true)) := by
        rw [← lexLt_cons_iff]
        simp [h1]
      have k2 : ¬ (y.toNat < x.toNat ∨ (y.toNat = x.toNat ∧ lexLt ys xs = true)) := by
        rw [← lexLt_cons_iff]
        simp [h2]
      push_neg at k1 k2
      have hxy : x.toNat = y.toNat := by omega
      have hx : x = y := by
        have : x.val = y.val := by
          apply UInt32.ext
          exact hxy
        exact Char.eq_of_val_eq this
      subst hx
      have htail : lexLt xs ys = false := by
        rcases hxs : lexLt xs ys with _ | _
        · rfl
        · exact absurd hxs (k1.2 rfl)
      have htail2 : lexLt ys xs = false := by
        rcases hys : lexLt ys xs with _ | _
        · rfl
        · exact absurd hys (k2.2 rfl)
      rw [ih ys htail htail2]

lemma lexLt_trans : ∀ a b c : List Char,
    lexLt a b = true → lexLt b c = true → lexLt a c = true := by
  intro a
  induction a with
  | nil =>
    intro b c h1 h2
    cases b with
    | nil => simp [lexLt] at h1
    | cons y ys =>
      cases c with
      | nil => simp [lexLt] at h2
      | cons z zs => rfl
  | cons x xs ih =>
    intro b c h1 h2
    cases b with
    | nil => simp [lexLt] at h1
    | cons y ys =>
      cases c with
      | nil => simp [lexLt] at h2
      | cons z zs =>
        rw [lexLt_cons_iff]
        rcases (lexLt_cons_iff x y xs ys).mp h1 with k1 | ⟨k1, k1t⟩ <;>
          rcases (lexLt_cons_iff y z ys zs).mp h2 with k2 | ⟨k2, k2t⟩
        · exact Or.inl (by omega)
        · exact Or.inl (by omega)
        · exact Or.inl (by omega)
        · exact Or.inr ⟨by omega, ih ys zs k1t k2t⟩

lemma tickerLe_trans (a b c : Report) :
    tickerLe a b = true → tickerLe b c = true → tickerLe a c = true := by
  intro h1 h2
  simp only [tickerLe, strLeB, Bool.not_eq_true'] at h1 h2 ⊢
  rcases hac : lexLt c.ticker.data a.ticker.data with _ | _
  · rfl
  · rcases hbc : lexLt b.ticker.data c.ticker.data with _ | _
    · have := lexLt_conn _ _ hbc h2
      rw [← this] at hac
      exact absurd hac (by simp [h1])
    · have := lexLt_trans _ _ _ hbc hac
      exact absurd this (by simp [h1])

lemma tickerLe_total (a b : Report) : (tickerLe a b || tickerLe b a) = true := by
  simp only [tickerLe, strLeB]
  rcases h : lexLt b.ticker.data a.ticker.data with _ | _
  · simp
  · rw [lexLt_asymm _ _ h]
    simp

lemma statusMatch_some (dl : Int) (r : DRec) :
    (match some r with
      | some r =>
        if dl ≤ r.dt.toordinal then "✅ " ++ r.s else "🔴 " ++ r.s ++ " (Late)"
      | none => "⚠️ Missing") =
      (if dl ≤ r.dt.toordinal then "✅ " ++ r.s else "🔴 " ++ r.s ++ " (Late)") := rfl

lemma check_fund_evaluated (t : String) (today : Date) (page : Page) :
    fullyEvaluated (check_fund t today (some page)) := by
  refine ⟨?_, ?_, ?_, ?_⟩
  · rw [evaluatedStatus, check_fund_nav]
    rcases hsel : selMax navKey page.records with _ | r
    · exact Or.inl rfl
    · rw [statusMatch_some]
      by_cases hc : (get_expectations t today).1 ≤ r.dt.toordinal
      · exact Or.inr (Or.inl ⟨r.s, by rw [if_pos hc]⟩)
      · exact Or.inr (Or.inr ⟨r.s, by rw [if_neg hc]⟩)
  · rw [evaluatedStatus, check_fund_perf]
    rcases hsel : selMax perfKey page.records with _ | r
    · exact Or.inl rfl
    · rw [statusMatch_some]
      by_cases hc : (get_expectations t today).1 ≤ r.dt.toordinal
      · exact Or.inr (Or.inl ⟨r.s, by rw [if_pos hc]⟩)
      · exact Or.inr (Or.inr ⟨r.s, by rw [if_neg hc]⟩)
  · rw [evaluatedStatus, check_fund_holdings]
    rcases hsel : selMax holdKey page.records with _ | r
    · exact Or.inl rfl
    · rw [statusMatch_some]
      by_cases hc : (get_expectations t today).2.1 ≤ r.dt.toordinal
      · exact Or.inr (Or.inl ⟨r.s, by rw [if_pos hc]⟩)
      · exact Or.inr (Or.inr ⟨r.s, by rw [if_neg hc]⟩)
  · rw [distEvaluated, check_fund_dist]
    by_cases hc : strIn (strftime_dbY (fromordinal (get_expectations t today).2.2))
        page.fullText = true
    · exact Or.inr ⟨_, by rw [if_pos hc]⟩
    · exact Or.inl (by rw [if_neg hc])

/-- C7: for every submitted list of units and every completion order (a
permutation of it), the scan returns exactly one report per unit, the
result is sorted ascending by ticker, the result does not depend on the
completion order (given distinct tickers, as discovery produces), a
fetch-failed unit's report is `navStatus = Error` with the other three
columns left at the `Checking...` placeholder, and every successfully
fetched unit's report is fully evaluated. -/
theorem C7_scan_complete_sorted_isolated (today : Date)
    (units units' : List (String × Option Page))
    (hperm : units'.Perm units) (hnd : (units.map Prod.fst).Nodup) :
    (run_scan today units').length = units.length ∧
      List.Pairwise (fun a b => tickerLe a b = true) (run_scan today units') ∧
      run_scan today units' = run_scan today units ∧
      ∀ u ∈ units, ∃ rp ∈ run_scan today units',
        rp = check_fund u.1 today u.2 ∧ rp.ticker = u.1 ∧
          (u.2 = none →
            rp = ⟨u.1, "❌ Error", "Checking...", "Checking...", "Checking..."⟩) ∧
          (∀ pg, u.2 = some pg → fullyEvaluated rp) := by
  have hmapt : ∀ (L : List (String × Option Page)),
      ((L.map fun u => check_fund u.1 today u.2).map Report.ticker) = L.map Prod.fst := by
    intro L
    rw [List.map_map]
    exact List.map_congr_left fun u _ => check_fund_ticker u.1 today u.2
  have hsortnd : ∀ (L : List (String × Option Page)),
      (L.map Prod.fst).Nodup →
        (((L.map fun u => check_fund u.1 today u.2).mergeSort tickerLe).map
          Report.ticker).Nodup := by
    intro L hL
    have p1 : (((L.map fun u => check_fund u.1 today u.2).mergeSort tickerLe).map
        Report.ticker).Perm (L.map Prod.fst) := by
      have := (List.mergeSort_perm (L.map fun u => check_fund u.1 today u.2) tickerLe).map
        Report.ticker
      rw [hmapt] at this
      exact this
    exact p1.nodup_iff.mpr hL
  have hstrict : ∀ (L : List (String × Option Page)),
      (L.map Prod.fst).Nodup →
        List.Pairwise (fun a b : Report => lexLt a.ticker.data b.ticker.data = true)
          ((L.map fun u => check_fund u.1 today u.2).mergeSort tickerLe) := by
    intro L hL
    have hle := List.sorted_mergeSort tickerLe_trans tickerLe_total
      (L.map fun u => check_fund u.1 today u.2)
    have hne : List.Pairwise (fun a b : Report => a.ticker ≠ b.ticker)
        ((L.map fun u => check_fund u.1 today u.2).mergeSort tickerLe) :=
      List.pairwise_map.mp (hsortnd L hL)
    refine (hle.and hne).imp ?_
    intro a b hab
    obtain ⟨h1, h2⟩ := hab
    rcases hab2 : lexLt a.ticker.data b.ticker.data with _ | _
    · exfalso
      have h1' : lexLt b.ticker.data a.ticker.data = false := by
        simpa [tickerLe, strLeB] using h1
      exact h2 (String.ext (lexLt_conn _ _ hab2 h1'))
    · rfl
  have hndA : (units'.map Prod.fst).Nodup := ((hperm.map Prod.fst).nodup_iff).mpr hnd
  refine ⟨?_, ?_, ?_, ?_⟩
  · rw [run_scan, List.length_mergeSort, List.length_map, hperm.length_eq]
  · rw [run_scan]
    exact List.sorted_mergeSort tickerLe_trans tickerLe_total _
  · rw [run_scan, run_scan]
    have hpm : (units'.map fun u => check_fund u.1 today u.2).Perm
        (units.map fun u => check_fund u.1 today u.2) := hperm.map _
    have permAB : ((units'.map fun u => check_fund u.1 today u.2).mergeSort tickerLe).Perm
        ((units.map fun u => check_fund u.1 today u.2).mergeSort tickerLe) :=
      (List.mergeSort_perm _ _).trans (hpm.trans (List.mergeSort_perm _ _).symm)
    haveI : IsAntisymm Report (fun a b => lexLt a.ticker.data b.ticker.data = true) :=
      ⟨fun a b h1 h2 => absurd h2 (by rw [lexLt_asymm _ _ h1]; simp)⟩
    exact List.eq_of_perm_of_sorted permAB (hstrict units' hndA) (hstrict units hnd)
  · intro u hu
    refine ⟨check_fund u.1 today u.2, ?_, rfl, check_fund_ticker _ _ _, ?_, ?_⟩
    · rw [run_scan]
      refine (List.mergeSort_perm _ _).mem_iff.mpr ?_
      refine (hperm.map fun u => check_fund u.1 today u.2).mem_iff.mpr ?_
      exact List.mem_map_of_mem _ hu
    · intro h2
      rw [h2, check_fund_err]
    · intro pg hpg
      rw [hpg]
      exact check_fund_evaluated _ _ _

/-- Witness for C7: two units, one failed, submitted in one order and
completed in the other. -/
theorem C7_scan_complete_sorted_isolated_witness :
    (run_scan ⟨2025, 11, 25⟩ [("AAA", some ⟨[], "t"⟩), ("BBB", none)]).length =
        [("BBB", (none : Option Page)), ("AAA", some ⟨[], "t"⟩)].length ∧
      List.Pairwise (fun a b => tickerLe a b = true)
        (run_scan ⟨2025, 11, 25⟩ [("AAA", some ⟨[], "t"⟩), ("BBB", none)]) ∧
      run_scan ⟨2025, 11, 25⟩ [("AAA", some ⟨[], "t"⟩), ("BBB", none)] =
        run_scan ⟨2025, 11, 25⟩ [("BBB", none), ("AAA", some ⟨[], "t"⟩)] ∧
      ∀ u ∈ [("BBB", (none : Option Page)), ("AAA", some ⟨[], "t"⟩)],
        ∃ rp ∈ run_scan ⟨2025, 11, 25⟩ [("AAA", some ⟨[], "t"⟩), ("BBB", none)],
          rp = check_fund u.1 ⟨2025, 11, 25⟩ u.2 ∧ rp.ticker = u.1 ∧
            (u.2 = none →
              rp = ⟨u.1, "❌ Error", "Checking...", "Checking...", "Checking..."⟩) ∧
            (∀ pg, u.2 = some pg → fullyEvaluated rp) :=
  C7_scan_complete_sorted_isolated ⟨2025, 11, 25⟩
    [("BBB", none), ("AAA", some ⟨[], "t"⟩)]
    [("AAA", some ⟨[], "t"⟩), ("BBB", none)]
    (by decide) (by decide)

/-! ## The date round trip (C9) -/

lemma digitChar_lt10_facts (k : Nat) (h : k < 10) :
    ciEq (digitChar k) 'd' = false ∧ pyWs (digitChar k) = false ∧
      (digitChar k != ',') = true ∧ isDig (digitChar k) = true ∧
      digitVal (digitChar k) = k := by
  interval_cases k <;> exact ⟨by decide, by decide, by decide, by decide, by decide⟩

lemma tryAsOf_nil : tryAsOf [] = none := rfl

lemma tryAsOf_head (c : Char) (t : List Char) (h : ciEq c 'd' = false) :
    tryAsOf (c :: t) = none := by
  simp [tryAsOf, litCI, h]

lemma tryAsOf_second (c₁ c₂ : Char) (t : List Char) (h : ciEq c₂ 'a' = false) :
    tryAsOf (c₁ :: c₂ :: t) = none := by
  simp [tryAsOf, litCI, h]

lemma reSubAsOf_eq_self (l : List Char) (h : ∀ t, t <:+ l → tryAsOf t = none) :
    reSubAsOf l = l := by
  induction l with
  | nil => rw [reSubAsOf]
  | cons c cs ih =>
    rw [reSubAsOf, h (c :: cs) (List.suffix_refl _)]
    rw [ih fun t ht => h t (ht.trans (List.suffix_cons c cs))]

lemma fmt_no_asof (c1 c2 m1 m2 m3 y1 y2 y3 y4 : Char)
    (h1 : ciEq c1 'd' = false) (h2 : ciEq c2 'd' = false)
    (hm1 : ciEq m1 'd' = false ∨ ciEq m2 'a' = false)
    (hm2 : ciEq m2 'd' = false) (hm3 : ciEq m3 'd' = false)
    (hy1 : ciEq y1 'd' = false) (hy2 : ciEq y2 'd' = false)
    (hy3 : ciEq y3 'd' = false) (hy4 : ciEq y4 'd' = false) :
    ∀ t, t <:+ [c1, c2, ' ', m1, m2, m3, ' ', y1, y2, y3, y4] → tryAsOf t = none := by
  intro t ht
  rcases List.suffix_cons_iff.mp ht with rfl | ht
  · exact tryAsOf_head _ _ h1
  rcases List.suffix_cons_iff.mp ht with rfl | ht
  · exact tryAsOf_head _ _ h2
  rcases List.suffix_cons_iff.mp ht with rfl | ht
  · exact tryAsOf_head _ _ (by decide)
  rcases List.suffix_cons_iff.mp ht with rfl | ht
  · rcases hm1 with h | h
    · exact tryAsOf_head _ _ h
    · exact tryAsOf_second _ _ _ h
  rcases List.suffix_cons_iff.mp ht with rfl | ht
  · exact tryAsOf_head _ _ hm2
  rcases List.suffix_cons_iff.mp ht with rfl | ht
  · exact tryAsOf_head _ _ hm3
  rcases List.suffix_cons_iff.mp ht with rfl | ht
  · exact tryAsOf_head _ _ (by decide)
  rcases List.suffix_cons_iff.mp ht with rfl | ht
  · exact tryAsOf_head _ _ hy1
  rcases List.suffix_cons_iff.mp ht with rfl | ht
  · exact tryAsOf_head _ _ hy2
  rcases List.suffix_cons_iff.mp ht with rfl | ht
  · exact tryAsOf_head _ _ hy3
  rcases List.suffix_cons_iff.mp ht with rfl | ht
  · exact tryAsOf_head _ _ hy4
  rw [List.suffix_nil.mp ht]
  exact tryAsOf_nil

lemma fmt_no_asof_app (dd m y : Nat) (hm1 : 1 ≤ m) (hm2 : m ≤ 12) :
    ∀ t, t <:+ (ddChars dd ++ ' ' :: (monChars m ++ ' ' :: yChars y)) →
      tryAsOf t = none := by
  have d1 := (digitChar_lt10_facts (dd / 10 % 10) (Nat.mod_lt _ (by omega))).1
  have d2 := (digitChar_lt10_facts (dd % 10) (Nat.mod_lt _ (by omega))).1
  have q1 := (digitChar_lt10_facts (y / 1000 % 10) (Nat.mod_lt _ (by omega))).1
  have q2 := (digitChar_lt10_facts (y / 100 % 10) (Nat.mod_lt _ (by omega))).1
  have q3 := (digitChar_lt10_facts (y / 10 % 10) (Nat.mod_lt _ (by omega))).1
  have q4 := (digitChar_lt10_facts (y % 10) (Nat.mod_lt _ (by omega))).1
  interval_cases m <;>
    first
      | exact fmt_no_asof _ _ _ _ _ _ _ _ _ d1 d2 (Or.inl (by decide)) (by decide)
          (by decide) q1 q2 q3 q4
      | exact fmt_no_asof _ _ _ _ _ _ _ _ _ d1 d2 (Or.inr (by decide)) (by decide)
          (by decide) q1 q2 q3 q4

lemma dropWhile_eq_self_head (l : List Char) (h : ∀ c, l.head? = some c → pyWs c = false) :
    l.dropWhile pyWs = l := by
  cases l with
  | nil => rfl
  | cons c cs =>
    rw [List.dropWhile_cons, if_neg (by simp [h c rfl])]

lemma pstrip_eq_self (l : List Char) (h1 : ∀ c, l.head? = some c → pyWs c = false)
    (h2 : ∀ c, l.getLast? = some c → pyWs c = false) : pstrip l = l := by
  rw [pstrip, dropWhile_eq_self_head l h1]
  rw [dropWhile_eq_self_head l.reverse fun c hc =>
    h2 c (by rw [← List.head?_reverse]; exact hc)]
  exact List.reverse_reverse l

lemma takeWhile_ne_comma (l : List Char) (h : ∀ c ∈ l, (c != ',') = true) :
    beforeComma l = l := by
  rw [beforeComma]
  induction l with
  | nil => rfl
  | cons c cs ih =>
    rw [List.takeWhile_cons, if_pos (h c (by simp))]
    rw [ih fun x hx => h x (by simp [hx])]

lemma mon_head_not_ws (m : Nat) (h1 : 1 ≤ m) (h2 : m ≤ 12) :
    ∀ c, (monChars m).head? = some c → pyWs c = false := by
  interval_cases m <;>
    (intro c hc;
      simp only [monChars, List.head?, Option.some.injEq] at hc;
      rcases hc with rfl <;> decide)

lemma mon_ne_comma (m : Nat) (h1 : 1 ≤ m) (h2 : m ≤ 12) :
    ∀ c ∈ monChars m, (c != ',') = true := by
  interval_cases m <;> decide

lemma parseDay_pad (dd : Nat) (rest : List Char) (hge : 1 ≤ dd) (hle : dd ≤ 31) :
    parseDay (ddChars dd ++ rest) = some (dd, rest) := by
  interval_cases dd <;>
  · change parseDay (_ :: _ :: rest) = _
    simp only [parseDay]
    repeat rw [if_neg (by decide)]
    rw [if_pos (by decide)]
    refine congrArg (fun v => some (v, rest)) ?_
    decide

lemma litCI_length_eq : ∀ (ps l rest : List Char), ps.length = l.length →
    litCI ps (l ++ rest) =
      (match litCI ps l with
        | some _ => some rest
        | none => none) := by
  intro ps
  induction ps with
  | nil =>
    intro l rest h
    have : l = [] := by
      cases l
      · rfl
      · simp at h
    subst this
    rfl
  | cons p ps ih =>
    intro l rest h
    cases l with
    | nil => simp at h
    | cons c cs =>
      simp only [List.cons_append, litCI]
      by_cases hc : ciEq c p = true
      · rw [if_pos hc, if_pos hc]
        exact ih cs rest (by simpa using h)
      · rw [if_neg hc, if_neg hc]

lemma lookupMonth_append : ∀ (tbl : List (List Char × Nat)) (l rest : List Char),
    (∀ e ∈ tbl, e.1.length = l.length) →
    lookupMonth tbl (l ++ rest) =
      (match lookupMonth tbl l with
        | some (m, _) => some (m, rest)
        | none => none) := by
  intro tbl
  induction tbl with
  | nil => intro l rest _; rfl
  | cons e tbl ih =>
    intro l rest h
    obtain ⟨pat, m⟩ := e
    simp only [lookupMonth]
    rw [litCI_length_eq pat l rest (h (pat, m) (by simp))]
    rcases hl : litCI pat l with _ | r
    · exact ih l rest fun e he => h e (by simp [he])
    · rfl

lemma lookupMonth_mon (mm : Nat) (rest : List Char) (h1 : 1 ≤ mm) (h2 : mm ≤ 12) :
    lookupMonth monthTable (monChars mm ++ rest) = some (mm, rest) := by
  have hlen : ∀ e ∈ monthTable, e.1.length = (monChars mm).length := by
    interval_cases mm <;> decide
  have hm : lookupMonth monthTable (monChars mm) = some (mm, []) := by
    interval_cases mm <;> decide
  rw [lookupMonth_append monthTable (monChars mm) rest hlen, hm]

lemma parseYear4_pad (y : Nat) (hy : y ≤ 9999) :
    parseYear4 (yChars y) = some (y, []) := by
  have q1 := digitChar_lt10_facts (y / 1000 % 10) (Nat.mod_lt _ (by omega))
  have q2 := digitChar_lt10_facts (y / 100 % 10) (Nat.mod_lt _ (by omega))
  have q3 := digitChar_lt10_facts (y / 10 % 10) (Nat.mod_lt _ (by omega))
  have q4 := digitChar_lt10_facts (y % 10) (Nat.mod_lt _ (by omega))
  show parseYear4 (_ :: _ :: _ :: _ :: []) = _
  simp only [parseYear4]
  rw [if_pos ⟨q1.2.2.2.1, q2.2.2.2.1, q3.2.2.2.1, q4.2.2.2.1⟩]
  refine congrArg (fun v => some (v, ([] : List Char))) ?_
  rw [q1.2.2.2.2, q2.2.2.2.2, q3.2.2.2.2, q4.2.2.2.2]
  omega

lemma wsPlus_cons (Z : List Char) : wsPlus (' ' :: Z) = some (Z.dropWhile pyWs) := by
  simp only [wsPlus]
  rw [if_pos (by decide)]

lemma daysInMonth_le_31 (y m : Nat) : daysInMonth y m ≤ 31 := by
  rw [daysInMonth]
  split_ifs <;> omega

lemma monApp_head_not_ws (m : Nat) (h1 : 1 ≤ m) (h2 : m ≤ 12) (X : List Char) :
    ∀ c, (monChars m ++ X).head? = some c → pyWs c = false := by
  interval_cases m <;>
    (intro c hc;
      simp only [monChars, List.cons_append, List.head?, Option.some.injEq] at hc;
      rcases hc with rfl <;> decide)

lemma yChars_head_not_ws (y : Nat) :
    ∀ c, (yChars y).head? = some c → pyWs c = false := by
  intro c hc
  simp only [yChars, List.head?, Option.some.injEq] at hc
  rcases hc with rfl
  exact (digitChar_lt10_facts _ (Nat.mod_lt _ (by omega))).2.1

lemma strptime_fmt (d : Date) (h : d.Valid) :
    strptime_dbY (ddChars d.day ++ ' ' :: (monChars d.month ++ ' ' :: yChars d.year)) =
      some d := by
  obtain ⟨h1, h2, h3, h4, h5, h6⟩ := h
  have hday : d.day ≤ 31 := le_trans h6 (daysInMonth_le_31 _ _)
  simp only [strptime_dbY, Option.bind_eq_bind]
  rw [parseDay_pad d.day _ h5 hday, Option.some_bind]
  rw [wsPlus_cons, Option.some_bind]
  rw [dropWhile_eq_self_head _ (monApp_head_not_ws d.month h3 h4 _)]
  rw [lookupMonth_mon d.month _ h3 h4, Option.some_bind]
  rw [wsPlus_cons, Option.some_bind]
  rw [dropWhile_eq_self_head _ (yChars_head_not_ws d.year)]
  rw [parseYear4_pad d.year h2, Option.some_bind]
  rw [if_pos ⟨rfl, h1, h2, h3, h4, h5, h6⟩]

lemma mon_mem_ne_comma (m : Nat) (h1 : 1 ≤ m) (h2 : m ≤ 12) :
    ∀ c ∈ monChars m, (c != ',') = true := by
  interval_cases m <;> decide

/-- C9: formatting any Python-representable date with the fixed
`%d %b %Y` format and feeding the result to `parse_date` yields the
same date back (and the cleaned string `parse_date` returns is the
formatted text itself): the `date|data as of` regex never fires on a
formatted date, it contains no comma and no surrounding whitespace, and
`strptime` inverts `strftime` on this format. -/
theorem C9_parse_format_roundtrip (d : Date) (h : d.Valid) :
    parse_date (strftime_dbY d) = (some d, strftime_dbY d) := by
  obtain ⟨h1, h2, h3, h4, h5, h6⟩ := h
  have hday : d.day ≤ 31 := le_trans h6 (daysInMonth_le_31 _ _)
  have hL : (strftime_dbY d).data =
      ddChars d.day ++ ' ' :: (monChars d.month ++ ' ' :: yChars d.year) := rfl
  have hsub : reSubAsOf (ddChars d.day ++ ' ' :: (monChars d.month ++ ' ' :: yChars d.year)) =
      ddChars d.day ++ ' ' :: (monChars d.month ++ ' ' :: yChars d.year) :=
    reSubAsOf_eq_self _ (fmt_no_asof_app d.day d.month d.year h3 h4)
  have hhead : ∀ c, (ddChars d.day ++ ' ' :: (monChars d.month ++ ' ' :: yChars d.year)).head? =
      some c → pyWs c = false := by
    intro c hc
    simp only [ddChars, List.cons_append, List.head?, Option.some.injEq] at hc
    rcases hc with rfl
    exact (digitChar_lt10_facts _ (Nat.mod_lt _ (by omega))).2.1
  have hlast : ∀ c, (ddChars d.day ++ ' ' :: (monChars d.month ++ ' ' :: yChars d.year)).getLast? =
      some c → pyWs c = false := by
    intro c hc
    rw [List.getLast?_append] at hc
    rw [show (' ' :: (monChars d.month ++ ' ' :: yChars d.year)).getLast? =
        (monChars d.month ++ ' ' :: yChars d.year).getLast? from by
      cases hmm : monChars d.month ++ ' ' :: yChars d.year with
      | nil => simp at hmm
      | cons a t => exact List.getLast?_cons_cons] at hc
    rw [List.getLast?_append] at hc
    rw [show (' ' :: yChars d.year).getLast? = some (digitChar (d.year % 10)) from rfl] at hc
    simp only [Option.or_some, Option.some.injEq] at hc
    rcases hc with rfl
    exact (digitChar_lt10_facts _ (Nat.mod_lt _ (by omega))).2.1
  have hstrip : pstrip (ddChars d.day ++ ' ' :: (monChars d.month ++ ' ' :: yChars d.year)) =
      ddChars d.day ++ ' ' :: (monChars d.month ++ ' ' :: yChars d.year) :=
    pstrip_eq_self _ hhead hlast
  have hcomma : beforeComma (ddChars d.day ++ ' ' :: (monChars d.month ++ ' ' :: yChars d.year)) =
      ddChars d.day ++ ' ' :: (monChars d.month ++ ' ' :: yChars d.year) := by
    refine takeWhile_ne_comma _ ?_
    intro c hc
    rcases List.mem_append.mp hc with hc | hc
    · simp only [ddChars, List.mem_cons, List.not_mem_nil, or_false] at hc
      rcases hc with rfl | rfl <;>
        exact (digitChar_lt10_facts _ (Nat.mod_lt _ (by omega))).2.2.1
    · rcases List.mem_cons.mp hc with rfl | hc
      · decide
      rcases List.mem_append.mp hc with hc | hc
      · exact mon_mem_ne_comma d.month h3 h4 c hc
      rcases List.mem_cons.mp hc with rfl | hc
      · decide
      · simp only [yChars, List.mem_cons, List.not_mem_nil, or_false] at hc
        rcases hc with rfl | rfl | rfl | rfl <;>
          exact (digitChar_lt10_facts _ (Nat.mod_lt _ (by omega))).2.2.1
  rw [parse_date, hL, hsub, hstrip, hcomma, hstrip]
  rw [strptime_fmt d ⟨h1, h2, h3, h4, h5, h6⟩]
  rfl

/-- Witness for C9 at the concrete date 2025-11-24. -/
theorem C9_parse_format_roundtrip_witness :
    parse_date (strftime_dbY ⟨2025, 11, 24⟩) =
      (some ⟨2025, 11, 24⟩, strftime_dbY ⟨2025, 11, 24⟩) :=
  C9_parse_format_roundtrip ⟨2025, 11, 24⟩ (by decide)
